import Mathlib

/-!
Verification of the comparison-scheduler core of `app.py` (image-ranker).

The scheduler's global state (`image_pairs`, `current_pair_index`,
`last_shown_image`, `excluded_images`, `elo_ranking`,
`comparisons_since_autosave`) is embedded as an explicit `AppState` record,
and every route handler that the claims mention becomes a pure function on
`AppState`.  Filesystem enumeration (`os.walk`) is passed in as the list of
file paths it would yield, and `random.shuffle` is passed in as a function
argument (theorems assume it permutes its input where that matters).

The `elo` module (`TrueSkillRanking`) is not part of the sources; its
interface is modelled from the specification (§6), with the rating-update
math abstracted as a parameter.
-/

namespace ImageRanker

/-- The allow-listed image extensions of `get_image_paths` (app.py line 34). -/
def image_extensions : List String :=
  [".png", ".jpg", ".jpeg", ".gif", ".webp", ".jfif", ".avif", ".heic", ".heif"]

/-- Python `str.lower()`, modelled on the string's character list (the
built-in `String.toLower` does not reduce in the kernel). -/
def strToLower (s : String) : String := ⟨s.data.map Char.toLower⟩

/-- Python `str.endswith(suffix)`, modelled on the character lists. -/
def strEndsWith (s suffix : String) : Bool := suffix.data.isSuffixOf s.data

/-- `file.lower().endswith((...))` from app.py line 34. -/
def is_image_file (f : String) : Bool :=
  image_extensions.any (fun e => strEndsWith (strToLower f) e)

/-- Modelled from the spec: the Rating Engine collaborator
(`elo.TrueSkillRanking`, not under the sources).  Per §6 it holds the ordered
comparison history (sentinel winner stored as `none`), a ratings snapshot
(item, mean) and per-item comparison counts.  The rating math itself is out
of scope (§1) and is threaded through as an abstract `MathUpd` parameter. -/
structure TrueSkillRanking where
  comparison_history : List (Option String × String)
  ratings : List (String × ℚ)
  counts : List (String × ℕ)
deriving DecidableEq

/-- An abstract per-outcome rating update: given one history row it revises
the (ratings, counts) snapshot.  Its definition is the Engine's private math
(out of scope per §1); theorems quantify over it. -/
def MathUpd : Type :=
  (Option String × String) → List (String × ℚ) × List (String × ℕ) →
    List (String × ℚ) × List (String × ℕ)

/-- Modelled from the spec: a fresh Engine (`TrueSkillRanking()`), no
history, no ratings, no counts. -/
def TrueSkillRanking.init : TrueSkillRanking := ⟨[], [], []⟩

/-- Modelled from the spec: `recordOutcome` — appends the outcome to the
history and lets the abstract math revise ratings and counts. -/
def TrueSkillRanking.update_rating (math : MathUpd) (p : Option String × String)
    (e : TrueSkillRanking) : TrueSkillRanking :=
  let rc := math p (e.ratings, e.counts)
  ⟨e.comparison_history ++ [p], rc.1, rc.2⟩

/-- Modelled from the spec: the batch form of `recordOutcome` (§6). -/
def TrueSkillRanking.update_rating_batch (math : MathUpd)
    (ps : List (Option String × String)) (e : TrueSkillRanking) : TrueSkillRanking :=
  ps.foldl (fun e p => e.update_rating math p) e

/-- Modelled from the spec: `deleteItem` — removal is hard, deleting the
item's rating record and its history rows (§3, §6). -/
def TrueSkillRanking.remove_image (image : String) (e : TrueSkillRanking) :
    TrueSkillRanking :=
  ⟨e.comparison_history.filter (fun r => !(r.1 = some image) && !(r.2 = image)),
   e.ratings.filter (fun r => !(r.1 = image)),
   e.counts.filter (fun c => !(c.1 = image))⟩

/-- Modelled from the spec: `deleteItem` on a set of items (§6). -/
def TrueSkillRanking.remove_images (images : List String) (e : TrueSkillRanking) :
    TrueSkillRanking :=
  images.foldl (fun e i => e.remove_image i) e

/-- Modelled from the spec: `recomputeFromHistory` — ratings and counts are
rebuilt by replaying the stored history from the empty state through the
abstract math (§6). -/
def TrueSkillRanking.recalculate_rankings (math : MathUpd) (e : TrueSkillRanking) :
    TrueSkillRanking :=
  let rc := e.comparison_history.foldl (fun rc p => math p rc) ([], [])
  ⟨e.comparison_history, rc.1, rc.2⟩

/-- The scheduler's global mutable state (app.py lines 19-27). -/
structure AppState where
  excluded_images : List String
  image_pairs : List (String × String)
  current_pair_index : ℕ
  last_shown_image : Option String
  elo_ranking : TrueSkillRanking
  comparisons_since_autosave : ℕ
deriving DecidableEq

/-- `get_image_paths` (app.py lines 29-46): `walk` is the list of file paths
`os.walk` yields under `IMAGE_FOLDER`, in traversal order; keep those with an
allow-listed extension that are not excluded. -/
def get_image_paths (walk : List String) (excluded_images : List String) :
    List String :=
  walk.filter (fun f => is_image_file f && !(f ∈ excluded_images))

/-- Python `set.add`: insert if absent (insertion-ordered model of a set —
only membership is ever consulted). -/
def setInsert (x : String × String) (l : List (String × String)) :
    List (String × String) :=
  if x ∈ l then l else l ++ [x]

/-- Insert-if-absent for a set of strings. -/
def setInsertStr (x : String) (l : List String) : List String :=
  if x ∈ l then l else l ++ [x]

/-- `itertools.combinations(image_paths, 2)` (app.py line 67): all ordered
pairs (earlier element first) in lexicographic index order. -/
def combinations2 : List String → List (String × String)
  | [] => []
  | x :: xs => xs.map (fun y => (x, y)) ++ combinations2 xs

/-- The ring of n pairs `(image_paths[i], image_paths[(i+1) % n])` of
app.py lines 58-62. -/
def ring_pairs (image_paths : List String) : List (String × String) :=
  (List.range image_paths.length).map
    (fun i =>
      (image_paths.getD i "", image_paths.getD ((i + 1) % image_paths.length) ""))

/-- The pure pair construction of `initialize_image_pairs` (app.py lines
58-73): the ring, shuffled (`shuffle_ring` stands for the
`random.shuffle(initial_pairs)` call on line 66), the combinatorial
remainder with the ordered-tuple dedup `pair not in initial_pairs` of
line 68, and the final exclusion filter of line 73. -/
def build_pairs (shuffle_ring : List (String × String) → List (String × String))
    (image_paths : List String) (excluded_images : List String) :
    List (String × String) :=
  let initial_pairs := ring_pairs image_paths
  let initial_pairs := shuffle_ring initial_pairs
  let remaining_pairs := combinations2 image_paths
  let remaining_pairs := remaining_pairs.filter (fun pair => !(pair ∈ initial_pairs))
  let pairs := initial_pairs ++ remaining_pairs
  pairs.filter (fun pair =>
    !(pair.1 ∈ excluded_images) && !(pair.2 ∈ excluded_images))

/-- `initialize_image_pairs` (app.py lines 48-78): early return (keeping all
state) when no eligible image is found, otherwise store `build_pairs` and
reset the cursor.  `shuffle_tail` stands for the
`random.shuffle(image_pairs[n:])` call on line 77: the slice
`image_pairs[n:]` creates a fresh list, Python shuffles that copy in place
and discards it, so the stored `image_pairs` is unchanged by it — the model
applies `shuffle_tail` to the copy and drops the result, exactly as the
source does. -/
def initialize_image_pairs
    (shuffle_ring shuffle_tail : List (String × String) → List (String × String))
    (walk : List String) (s : AppState) : AppState :=
  let image_paths := get_image_paths walk s.excluded_images
  if image_paths.isEmpty then s
  else
    let pairs := build_pairs shuffle_ring image_paths s.excluded_images
    let _discarded := shuffle_tail (pairs.drop image_paths.length)
    { s with image_pairs := pairs, current_pair_index := 0 }

/-- Result of the `get_images` route: either the terminal
`'All comparisons completed'` response or an (image1, image2, progress)
payload. -/
inductive GetImagesResult where
  | allDone
  | pair (image1 image2 : String) (current total : ℕ)
deriving DecidableEq

/-- `get_images` (app.py lines 117-143): dispense `image_pairs[cursor]`,
swapping the two images when the first equals `last_shown_image` (the
`elif img2 == last: pass` branch changes nothing), record the new
`last_shown_image`, advance the cursor, and report
(len(comparison_history), len(image_pairs)) as progress. -/
def get_images (s : AppState) : GetImagesResult × AppState :=
  if s.current_pair_index ≥ s.image_pairs.length then (.allDone, s)
  else
    let p := s.image_pairs.getD s.current_pair_index ("", "")
    let q : String × String :=
      match s.last_shown_image with
      | none => p
      | some last => if p.1 = last then (p.2, p.1) else p
    (.pair q.1 q.2 s.elo_ranking.comparison_history.length s.image_pairs.length,
     { s with last_shown_image := some q.1,
              current_pair_index := s.current_pair_index + 1 })

/-- Dictionary lookup with default, for the Python `dict.get(k, d)` on the
assoc-list model of the Engine's snapshots. -/
def dget (l : List (String × ℚ)) (k : String) : ℚ :=
  ((l.find? (fun e => e.1 = k)).map Prod.snd).getD 0

/-- Dictionary lookup with default for the counts map. -/
def dgetNat (l : List (String × ℕ)) (k : String) : ℕ :=
  ((l.find? (fun e => e.1 = k)).map Prod.snd).getD 0

/-- `get_elo_difference` (app.py lines 104-105), with `elo_dict` built from
the Engine's ratings and `count_dict` keyed by `elo_dict`'s keys
(line 102), so an item absent from the ratings contributes 0 to both terms.
Floats are modelled as rationals. -/
def get_elo_difference (elo_dict : List (String × ℚ)) (count_dict : List (String × ℕ))
    (pair : String × String) : ℚ :=
  |dget elo_dict pair.1 - dget elo_dict pair.2| +
    (0.8 : ℚ) * ((dgetNat count_dict pair.1 : ℚ) + (dgetNat count_dict pair.2 : ℚ))

/-- The sort key `smart_shuffle` uses for a state: `elo_dict` from the
ratings, `count_dict` restricted to rated images (app.py lines 100-105). -/
def smart_shuffle_key (s : AppState) (pair : String × String) : ℚ :=
  let elo_dict := s.elo_ranking.ratings
  let count_dict := elo_dict.map (fun e => (e.1, dgetNat s.elo_ranking.counts e.1))
  get_elo_difference elo_dict count_dict pair

/-- `smart_shuffle` (app.py lines 84-107): drop the consumed prefix, reset
the cursor and stable-sort the remainder ascending by `get_elo_difference`
(Python's `list.sort` is a stable ascending sort by key). -/
def smart_shuffle (s : AppState) : AppState :=
  let pairs := s.image_pairs.drop s.current_pair_index
  let pairs := pairs.mergeSort (fun p q => smart_shuffle_key s p ≤ smart_shuffle_key s q)
  { s with image_pairs := pairs, current_pair_index := 0 }

/-- `remove_image` (app.py lines 243-249): prune the queue and delete the
item's Engine record.  The cursor is not touched. -/
def remove_image (image : String) (s : AppState) : AppState :=
  { s with
    image_pairs := s.image_pairs.filter (fun p => !(p.1 = image) && !(p.2 = image)),
    elo_ranking := s.elo_ranking.remove_image image }

/-- `exclude_image` (app.py lines 444-452): add to `excluded_images`, then
rebuild the pairs. -/
def exclude_image
    (shuffle_ring shuffle_tail : List (String × String) → List (String × String))
    (walk : List String) (excluded_image : String) (s : AppState) : AppState :=
  initialize_image_pairs shuffle_ring shuffle_tail walk
    { s with excluded_images := setInsertStr excluded_image s.excluded_images }

/-- `set_directory` (app.py lines 278-343), success path: a fresh Engine,
rebuilt pairs, cursor and autosave counter reset (`excluded_images` is not
cleared).  `valid` is false when the directory fails validation, in which
case no state changes. -/
def set_directory
    (shuffle_ring shuffle_tail : List (String × String) → List (String × String))
    (valid : Bool) (walk : List String) (s : AppState) : AppState :=
  if valid then
    let s := { s with elo_ranking := TrueSkillRanking.init }
    let s := initialize_image_pairs shuffle_ring shuffle_tail walk s
    { s with current_pair_index := 0, comparisons_since_autosave := 0 }
  else s

/-- The parse loop of `import_comparison_history` (app.py lines 424-432):
accumulate `pairs_to_add`, `losers_to_remove` and `pairs_to_remove`;
`winner, loser = row` raises on any row without exactly two columns, which
aborts the loop (locals discarded). -/
def parse_rows :
    List (List String) →
    List (String × String) × List String × List (String × String) →
    Except Unit (List (String × String) × List String × List (String × String))
  | [], acc => .ok acc
  | row :: rest, (adds, losers, rems) =>
    match row with
    | [winner, loser] =>
      let adds := if winner = "None" then adds else setInsert (winner, loser) adds
      let losers := if winner = "None" then setInsertStr loser losers else losers
      let rems := setInsert (loser, winner) (setInsert (winner, loser) rems)
      parse_rows rest (adds, losers, rems)
    | _ => .error ()

/-- `import_comparison_history` (app.py lines 408-442).  `rows` is the CSV's
data rows (after the skipped header).  With `append = false` the Engine's
history is cleared and its ratings recomputed *before* the parse loop runs
(lines 417-419); an unpacking failure then propagates as an exception,
leaving the globals as they stand at that point — the `.error` constructor
carries that state. -/
def import_comparison_history (math : MathUpd) (append : Bool)
    (rows : List (List String)) (s : AppState) : Except AppState AppState :=
  let s :=
    if append then s
    else
      let cleared := { s.elo_ranking with comparison_history := ([] : List (Option String × String)) }
      { s with elo_ranking := TrueSkillRanking.recalculate_rankings math cleared }
  match parse_rows rows ([], [], []) with
  | .error _ => .error s
  | .ok (pairs_to_add, losers_to_remove, pairs_to_remove) =>
    let image_pairs :=
      s.image_pairs.filter (fun p =>
        !(p.1 ∈ losers_to_remove) && !(p.2 ∈ losers_to_remove))
    let e := s.elo_ranking.update_rating_batch math
      (pairs_to_add.map (fun p => (some p.1, p.2)))
    let e := e.remove_images losers_to_remove
    let image_pairs := image_pairs.filter (fun p => !(p ∈ pairs_to_remove))
    .ok { s with image_pairs := image_pairs, elo_ranking := e }

/-- A rating math that leaves the snapshot untouched; used to instantiate
the abstract `MathUpd` parameter in concrete evaluations. -/
def trivialMath : MathUpd := fun _ rc => rc

/-- A pristine scheduler state: nothing excluded, empty queue, cursor 0,
fresh Engine. -/
def cleanState : AppState := ⟨[], [], 0, none, TrueSkillRanking.init, 0⟩

/-- A state in which one pair has been dispensed from a one-pair queue
(cursor 1, queue length 1 — the Queue invariant holds). -/
def shownState : AppState := ⟨[], [("a.png", "b.png")], 1, some "a.png", TrueSkillRanking.init, 0⟩

/-- A state whose queue holds the self-pair produced by a one-item item set
(see claim C10). -/
def selfPairState : AppState := ⟨[], [("x.png", "x.png")], 0, none, TrueSkillRanking.init, 0⟩

/-- A state whose Engine has one recorded outcome in its history. -/
def historyState : AppState :=
  ⟨[], [("a.png", "b.png")], 0, none, ⟨[(some "a.png", "b.png")], [], []⟩, 0⟩

/-- A state with one undispensed pair (cursor 0). -/
def pendingState : AppState := ⟨[], [("a.png", "b.png")], 0, none, TrueSkillRanking.init, 0⟩

/-- Import log data rows: one decided outcome and one excluded-sentinel
row. -/
def importRows : List (List String) := [["A", "B"], ["None", "C"]]

/-- A queue containing both orientations of the imported outcome and a pair
touching the sentinel loser. -/
def importState : AppState :=
  ⟨[], [("A", "B"), ("B", "A"), ("C", "D"), ("D", "E")], 0, none, TrueSkillRanking.init, 0⟩

/-- The ordered pair the spec says `next()` must return (§4.3, claim C6):
let (a,b) = Queue[Cursor]; if LastShown equals a, swap to (b,a), otherwise
keep (a,b).  Written from the spec's words, to be compared with
`get_images`. -/
def spec_dispensed_pair (s : AppState) : String × String :=
  let p := s.image_pairs.getD s.current_pair_index ("", "")
  if s.last_shown_image = some p.1 then (p.2, p.1) else p

/-- The spec's priority function (§4.4, claim C7):
priority(pair) = |mean(a) − mean(b)| + 0.8 × (count(a) + count(b)), with 0
used for items absent from the Rating Engine.  Written from the spec's
words, to be compared with the sort key `smart_shuffle` computes. -/
def spec_priority (s : AppState) (pair : String × String) : ℚ :=
  let mean := fun x => dget s.elo_ranking.ratings x
  let count := fun x : String =>
    if (s.elo_ranking.ratings.find? (fun e => e.1 = x)).isSome
    then (dgetNat s.elo_ranking.counts x : ℚ) else 0
  |mean pair.1 - mean pair.2| + (0.8 : ℚ) * (count pair.1 + count pair.2)

/- ------------------------------------------------------------------ -/
/- Claim C4                                                            -/
/- ------------------------------------------------------------------ -/

/-- Counterexample to C4: rebuilding over an empty eligible item set does
not empty the Queue.  With a previously dispensed pair still stored
(`shownState`) and a walk that yields no files, `initialize_image_pairs`
returns early and the old Queue (nonempty) and Cursor (1) are retained,
refuting "the resulting Queue is empty and Cursor = 0". -/
theorem C4_empty_rebuild_counterexample :
    ¬ ((initialize_image_pairs id id [] shownState).image_pairs = [] ∧
        (initialize_image_pairs id id [] shownState).current_pair_index = 0) := by
  decide

/-- C4 (amended): whenever the Queue Builder runs with an empty eligible
item set, it returns without touching any state: the previous Queue's
contents and the previous Cursor are retained, not cleared. -/
theorem C4_empty_rebuild_amended
    (shuffle_ring shuffle_tail : List (String × String) → List (String × String))
    (walk : List String) (s : AppState)
    (h : get_image_paths walk s.excluded_images = []) :
    initialize_image_pairs shuffle_ring shuffle_tail walk s = s := by
  unfold initialize_image_pairs
  simp [h]

/-- Witness for `C4_empty_rebuild_amended` at a concrete input. -/
theorem C4_empty_rebuild_amended_witness :
    get_image_paths [] shownState.excluded_images = [] ∧
      initialize_image_pairs id id [] shownState = shownState :=
  ⟨by decide, C4_empty_rebuild_amended id id [] shownState (by decide)⟩

/- ------------------------------------------------------------------ -/
/- Claim C5                                                            -/
/- ------------------------------------------------------------------ -/

/-- C5: the claim says the tail of the built Queue at offset n is shuffled
by the random source.  In the source, `random.shuffle(image_pairs[n:])`
shuffles the fresh list created by the slice and discards it, so the stored
Queue never depends on that shuffle: for any two tail-shuffle functions `f`
and `g` (however adversarial), the built state is identical, and the tail
stays in the deterministic enumeration order of the combinatorial set. -/
theorem C5_tail_shuffle_is_noop
    (shuffle_ring f g : List (String × String) → List (String × String))
    (walk : List String) (s : AppState) :
    initialize_image_pairs shuffle_ring f walk s =
      initialize_image_pairs shuffle_ring g walk s := rfl

/- ------------------------------------------------------------------ -/
/- Claim C3                                                            -/
/- ------------------------------------------------------------------ -/

/-- Counterexample to C3: `remove_image` filters the queue without adjusting
the cursor.  Starting from `shownState` (Cursor = 1 = len(Queue), invariant
holds), removing "a.png" empties the queue but leaves Cursor = 1 > 0 =
len(Queue), violating Cursor ∈ [0, len(Queue)]. -/
theorem C3_remove_breaks_invariant_counterexample :
    shownState.current_pair_index ≤ shownState.image_pairs.length ∧
      ¬ ((remove_image "a.png" shownState).current_pair_index ≤
          (remove_image "a.png" shownState).image_pairs.length) := by
  decide

/-- On a nonempty eligible set, the Queue Builder stores `build_pairs` and
resets the cursor, leaving all other state alone. -/
theorem initialize_image_pairs_nonempty
    (shuffle_ring shuffle_tail : List (String × String) → List (String × String))
    (walk : List String) (s : AppState)
    (h : (get_image_paths walk s.excluded_images).isEmpty = false) :
    initialize_image_pairs shuffle_ring shuffle_tail walk s =
      { s with
          image_pairs :=
            build_pairs shuffle_ring (get_image_paths walk s.excluded_images)
              s.excluded_images,
          current_pair_index := 0 } := by
  simp [initialize_image_pairs, h]

/-- The Queue Builder either leaves the state untouched (empty eligible
set) or resets the cursor to 0. -/
theorem initialize_image_pairs_cases
    (shuffle_ring shuffle_tail : List (String × String) → List (String × String))
    (walk : List String) (s : AppState) :
    initialize_image_pairs shuffle_ring shuffle_tail walk s = s ∨
      (initialize_image_pairs shuffle_ring shuffle_tail walk s).current_pair_index = 0 := by
  by_cases h : (get_image_paths walk s.excluded_images).isEmpty
  · left
    simp [initialize_image_pairs, h]
  · right
    simp [initialize_image_pairs, h]

/-- C3 (amended): the dispenser, the smart reorderer, the exclusion rebuild
and the session switch all keep Cursor within [0, len(Queue)] (Cursor is a
natural number, so the lower bound is implicit); `remove_image` and the
history import filter the Queue without adjusting the Cursor and can
violate the bound — see the counterexample. -/
theorem C3_cursor_bound_amended
    (s : AppState)
    (shuffle_ring shuffle_tail : List (String × String) → List (String × String))
    (walk : List String) (x : String) (valid : Bool)
    (hinv : s.current_pair_index ≤ s.image_pairs.length) :
    (get_images s).2.current_pair_index ≤ (get_images s).2.image_pairs.length ∧
    (smart_shuffle s).current_pair_index ≤ (smart_shuffle s).image_pairs.length ∧
    (exclude_image shuffle_ring shuffle_tail walk x s).current_pair_index ≤
      (exclude_image shuffle_ring shuffle_tail walk x s).image_pairs.length ∧
    (set_directory shuffle_ring shuffle_tail valid walk s).current_pair_index ≤
      (set_directory shuffle_ring shuffle_tail valid walk s).image_pairs.length := by
  refine ⟨?_, ?_, ?_, ?_⟩
  · unfold get_images
    split
    · simpa using hinv
    · rename_i h
      simp only [ge_iff_le, not_le] at h
      simpa using h
  · simp [smart_shuffle]
  · rcases initialize_image_pairs_cases shuffle_ring shuffle_tail walk
        { s with excluded_images := setInsertStr x s.excluded_images } with h | h
    · simp only [exclude_image, h]
      exact hinv
    · simp only [exclude_image, h]
      exact Nat.zero_le _
  · by_cases hv : valid
    · simp [set_directory, hv]
    · simpa [set_directory, hv] using hinv

/-- Witness for `C3_cursor_bound_amended` at a concrete input. -/
theorem C3_cursor_bound_amended_witness :
    shownState.current_pair_index ≤ shownState.image_pairs.length ∧
      ((get_images shownState).2.current_pair_index ≤
          (get_images shownState).2.image_pairs.length ∧
        (smart_shuffle shownState).current_pair_index ≤
          (smart_shuffle shownState).image_pairs.length ∧
        (exclude_image id id ["a.png"] "a.png" shownState).current_pair_index ≤
          (exclude_image id id ["a.png"] "a.png" shownState).image_pairs.length ∧
        (set_directory id id true ["a.png"] shownState).current_pair_index ≤
          (set_directory id id true ["a.png"] shownState).image_pairs.length) :=
  ⟨by decide, C3_cursor_bound_amended shownState id id ["a.png"] "a.png" true (by decide)⟩

/- ------------------------------------------------------------------ -/
/- Claim C9                                                            -/
/- ------------------------------------------------------------------ -/

/-- Counterexample to C9: excluding the only eligible item leaves the item
in the Queue.  From `selfPairState` (queue `[("x.png","x.png")]`), excluding
"x.png" makes the eligible set empty, so `initialize_image_pairs` returns
early and the stale pair containing "x.png" survives the "rebuild". -/
theorem C9_exclude_counterexample :
    ("x.png", "x.png") ∈ (exclude_image id id ["x.png"] "x.png" selfPairState).image_pairs ∧
      "x.png" ∈ (exclude_image id id ["x.png"] "x.png" selfPairState).excluded_images := by
  decide

/-- An element is a member of the set it was just added to. -/
theorem self_mem_setInsertStr (x : String) (l : List String) :
    x ∈ setInsertStr x l := by
  unfold setInsertStr
  split
  · assumption
  · simp

/-- C9 (amended): after `exclude_image x`, x is a member of ExclusionSet;
provided the eligible item set after the exclusion is nonempty, the Queue is
rebuilt with Cursor = 0 and no pair in it contains x or any other excluded
item.  (If no eligible item remains, the builder returns early and the
previous Queue — possibly still containing x — and Cursor survive; see the
counterexample.) -/
theorem C9_exclude_amended
    (shuffle_ring shuffle_tail : List (String × String) → List (String × String))
    (walk : List String) (x : String) (s : AppState)
    (hne : get_image_paths walk (setInsertStr x s.excluded_images) ≠ []) :
    x ∈ (exclude_image shuffle_ring shuffle_tail walk x s).excluded_images ∧
    (exclude_image shuffle_ring shuffle_tail walk x s).current_pair_index = 0 ∧
    ∀ p ∈ (exclude_image shuffle_ring shuffle_tail walk x s).image_pairs,
      p.1 ∉ (exclude_image shuffle_ring shuffle_tail walk x s).excluded_images ∧
      p.2 ∉ (exclude_image shuffle_ring shuffle_tail walk x s).excluded_images := by
  have hempty : (get_image_paths walk (setInsertStr x s.excluded_images)).isEmpty = false := by
    simpa [List.isEmpty_iff] using hne
  have hrw := initialize_image_pairs_nonempty shuffle_ring shuffle_tail walk
    { s with excluded_images := setInsertStr x s.excluded_images } hempty
  unfold exclude_image
  rw [hrw]
  refine ⟨self_mem_setInsertStr x s.excluded_images, rfl, ?_⟩
  intro p hp
  have hp' : p ∈ build_pairs shuffle_ring
      (get_image_paths walk (setInsertStr x s.excluded_images))
      (setInsertStr x s.excluded_images) := hp
  unfold build_pairs at hp'
  simp only [List.mem_filter, Bool.and_eq_true, Bool.not_eq_true',
    decide_eq_false_iff_not] at hp'
  exact hp'.2

/-- Witness for `C9_exclude_amended` at a concrete input. -/
theorem C9_exclude_amended_witness :
    get_image_paths ["a.png", "b.png"] (setInsertStr "a.png" cleanState.excluded_images) ≠ [] ∧
      ("a.png" ∈ (exclude_image id id ["a.png", "b.png"] "a.png" cleanState).excluded_images ∧
        (exclude_image id id ["a.png", "b.png"] "a.png" cleanState).current_pair_index = 0 ∧
        ∀ p ∈ (exclude_image id id ["a.png", "b.png"] "a.png" cleanState).image_pairs,
          p.1 ∉ (exclude_image id id ["a.png", "b.png"] "a.png" cleanState).excluded_images ∧
          p.2 ∉ (exclude_image id id ["a.png", "b.png"] "a.png" cleanState).excluded_images) :=
  ⟨by decide, C9_exclude_amended id id ["a.png", "b.png"] "a.png" cleanState (by decide)⟩

/- ------------------------------------------------------------------ -/
/- Claim C2                                                            -/
/- ------------------------------------------------------------------ -/

/-- C2 is a code bug: the import is not atomic for `append = false`.  The
handler clears the Engine's history and recomputes the rankings *before*
parsing the rows (app.py lines 417-419); a malformed row (here `["bad"]`,
one column) then aborts the loop, leaving the history cleared — the
pre-import history (nonempty here) is lost even though nothing at all was
merged in. -/
theorem C2_import_not_atomic :
    import_comparison_history trivialMath false [["A", "B"], ["bad"]] historyState =
        .error { historyState with elo_ranking := ⟨[], [], []⟩ } ∧
      historyState.elo_ranking.comparison_history ≠ [] :=
  ⟨rfl, by decide⟩

/- ------------------------------------------------------------------ -/
/- Claim C6                                                            -/
/- ------------------------------------------------------------------ -/

/-- C6: the dispenser.  When Cursor < len(Queue), `get_images` returns
exactly the pair `Queue[Cursor]` — swapped when LastShown equals its first
item, as `spec_dispensed_pair` prescribes — sets LastShown to the returned
first item, advances Cursor by exactly 1, and reports progress
(number of recorded outcomes, len(Queue)).  When Cursor ≥ len(Queue) it
reports the terminal state and changes nothing. -/
theorem C6_dispenser (s : AppState) :
    (s.image_pairs.length ≤ s.current_pair_index →
      get_images s = (.allDone, s)) ∧
    (s.current_pair_index < s.image_pairs.length →
      get_images s =
        (.pair (spec_dispensed_pair s).1 (spec_dispensed_pair s).2
            s.elo_ranking.comparison_history.length s.image_pairs.length,
         { s with last_shown_image := some (spec_dispensed_pair s).1,
                  current_pair_index := s.current_pair_index + 1 })) := by
  constructor
  · intro h
    unfold get_images
    rw [if_pos h]
  · intro h
    unfold get_images
    rw [if_neg (by omega)]
    unfold spec_dispensed_pair
    set p := s.image_pairs.getD s.current_pair_index ("", "") with hpdef
    cases hl : s.last_shown_image with
    | none => simp
    | some last =>
      by_cases hq : p.1 = last
      · simp only [hq, if_pos rfl, Option.some.injEq, if_true]
      · have hq' : ¬ last = p.1 := fun hh => hq hh.symm
        simp only [if_neg hq, Option.some.injEq, if_neg hq']

/-- Witness for `C6_dispenser`: the terminal branch at `shownState`
(Cursor = len), the dispensing branch at `pendingState` (Cursor = 0). -/
theorem C6_dispenser_witness :
    (shownState.image_pairs.length ≤ shownState.current_pair_index ∧
      get_images shownState = (.allDone, shownState)) ∧
    (pendingState.current_pair_index < pendingState.image_pairs.length ∧
      get_images pendingState =
        (.pair "a.png" "b.png" 0 1,
         { pendingState with last_shown_image := some "a.png", current_pair_index := 1 })) :=
  ⟨⟨by decide, (C6_dispenser shownState).1 (by decide)⟩,
   ⟨by decide, ((C6_dispenser pendingState).2 (by decide)).trans (by decide)⟩⟩

/- ------------------------------------------------------------------ -/
/- Claim C10                                                           -/
/- ------------------------------------------------------------------ -/

/-- C10: with a single eligible item `p` (and nothing excluded), the ring
construction yields the self-pair (p, p) — item[(0+1) mod 1] = item[0] — the
combinatorial remainder is empty, so the Queue is exactly [(p, p)] with
Cursor 0, and the first `get_images` call returns p paired against itself,
violating the distinct-items pair invariant at the public interface. -/
theorem C10_single_item_self_pair
    (shuffle_ring shuffle_tail : List (String × String) → List (String × String))
    (p : String) (s : AppState)
    (himg : is_image_file p = true) (hex : s.excluded_images = [])
    (hsh : ∀ l, (shuffle_ring l).Perm l) :
    (initialize_image_pairs shuffle_ring shuffle_tail [p] s).image_pairs = [(p, p)] ∧
    (initialize_image_pairs shuffle_ring shuffle_tail [p] s).current_pair_index = 0 ∧
    ∃ st', get_images (initialize_image_pairs shuffle_ring shuffle_tail [p] s) =
      (.pair p p s.elo_ranking.comparison_history.length 1, st') := by
  have hpaths : get_image_paths [p] s.excluded_images = [p] := by
    simp [get_image_paths, hex, himg]
  have hring : shuffle_ring [(p, p)] = [(p, p)] :=
    List.perm_singleton.1 (hsh [(p, p)])
  have hbuild : build_pairs shuffle_ring [p] s.excluded_images = [(p, p)] := by
    unfold build_pairs
    simp [hex, ring_pairs, List.range_succ, hring, combinations2]
  have hrw := initialize_image_pairs_nonempty shuffle_ring shuffle_tail [p] s
    (by rw [hpaths]; rfl)
  rw [hpaths] at hrw
  rw [hrw, hbuild]
  refine ⟨rfl, rfl,
    ⟨{ s with image_pairs := [(p, p)], current_pair_index := 1,
              last_shown_image := some p }, ?_⟩⟩
  unfold get_images
  rw [if_neg (by simp)]
  cases hl : s.last_shown_image with
  | none => simp [hl]
  | some last => simp [hl, ite_self]

/-- Witness for `C10_single_item_self_pair` at a concrete input. -/
theorem C10_single_item_self_pair_witness :
    (is_image_file "x.png" = true ∧ cleanState.excluded_images = []) ∧
      ((initialize_image_pairs id id ["x.png"] cleanState).image_pairs = [("x.png", "x.png")] ∧
        (initialize_image_pairs id id ["x.png"] cleanState).current_pair_index = 0 ∧
        ∃ st', get_images (initialize_image_pairs id id ["x.png"] cleanState) =
          (.pair "x.png" "x.png" cleanState.elo_ranking.comparison_history.length 1, st')) :=
  ⟨⟨by decide, rfl⟩,
   C10_single_item_self_pair id id "x.png" cleanState (by decide) rfl
     (fun l => List.Perm.refl l)⟩

/- ------------------------------------------------------------------ -/
/- Claim C7                                                            -/
/- ------------------------------------------------------------------ -/

/-- The lookup the code's `count_dict` (keyed by the rated images,
app.py line 102) performs equals the spec's "count, with 0 for items absent
from the Engine". -/
theorem count_dict_lookup (ratings : List (String × ℚ)) (counts : List (String × ℕ))
    (x : String) :
    dgetNat (ratings.map (fun e => (e.1, dgetNat counts e.1))) x =
      if (ratings.find? (fun e => e.1 = x)).isSome then dgetNat counts x else 0 := by
  unfold dgetNat
  rw [List.find?_map]
  have hcomp : ((fun e : String × ℕ => decide (e.1 = x)) ∘
      (fun e : String × ℚ =>
        (e.1, ((counts.find? (fun c => decide (c.1 = e.1))).map Prod.snd).getD 0))) =
      (fun e : String × ℚ => decide (e.1 = x)) := rfl
  rw [hcomp]
  cases hf : ratings.find? (fun e => decide (e.1 = x)) with
  | none => simp
  | some e =>
    have hpe := List.find?_some hf
    have hx : e.1 = x := of_decide_eq_true hpe
    simp [hx]

/-- The code's sort key equals the spec's priority function. -/
theorem smart_shuffle_key_eq_spec_priority (s : AppState) (pair : String × String) :
    smart_shuffle_key s pair = spec_priority s pair := by
  simp only [smart_shuffle_key, spec_priority, get_elo_difference]
  rw [count_dict_lookup, count_dict_lookup]
  push_cast
  split <;> split <;> ring

/-- C7: after `smart_shuffle`: Cursor = 0; the new Queue length is the
previous length minus the previous Cursor; any two remaining pairs at
positions i < j satisfy priority(Queue[i]) ≤ priority(Queue[j]) for
priority(pair) = |mean(a) − mean(b)| + 0.8·(count(a) + count(b)) with 0 for
items absent from the Engine; and pairs of equal priority keep their prior
relative order (the sort is stable). -/
theorem C7_smart_shuffle (s : AppState) :
    (smart_shuffle s).current_pair_index = 0 ∧
    (smart_shuffle s).image_pairs.length =
      s.image_pairs.length - s.current_pair_index ∧
    (smart_shuffle s).image_pairs.Pairwise
      (fun p q => spec_priority s p ≤ spec_priority s q) ∧
    (∀ a b : String × String,
      [a, b].Sublist (s.image_pairs.drop s.current_pair_index) →
      spec_priority s a = spec_priority s b →
      [a, b].Sublist (smart_shuffle s).image_pairs) := by
  have htrans : ∀ a b c : String × String,
      decide (smart_shuffle_key s a ≤ smart_shuffle_key s b) = true →
      decide (smart_shuffle_key s b ≤ smart_shuffle_key s c) = true →
      decide (smart_shuffle_key s a ≤ smart_shuffle_key s c) = true := by
    intro a b c hab hbc
    simp only [decide_eq_true_eq] at *
    exact le_trans hab hbc
  have htotal : ∀ a b : String × String,
      (decide (smart_shuffle_key s a ≤ smart_shuffle_key s b) ||
        decide (smart_shuffle_key s b ≤ smart_shuffle_key s a)) = true := by
    intro a b
    rcases le_total (smart_shuffle_key s a) (smart_shuffle_key s b) with h | h <;> simp [h]
  refine ⟨rfl, ?_, ?_, ?_⟩
  · simp [smart_shuffle]
  · have hs := List.sorted_mergeSort htrans htotal
      (s.image_pairs.drop s.current_pair_index)
    refine List.Pairwise.imp ?_ hs
    intro p q hpq
    rw [← smart_shuffle_key_eq_spec_priority, ← smart_shuffle_key_eq_spec_priority]
    exact of_decide_eq_true hpq
  · intro a b hsub heq
    have hab : decide (smart_shuffle_key s a ≤ smart_shuffle_key s b) = true := by
      rw [smart_shuffle_key_eq_spec_priority, smart_shuffle_key_eq_spec_priority, heq]
      simp
    exact List.pair_sublist_mergeSort htrans htotal hab hsub

/- ------------------------------------------------------------------ -/
/- Claim C8                                                            -/
/- ------------------------------------------------------------------ -/

/-- Membership is retained by Python set insertion (pairs). -/
theorem mem_setInsert_of_mem {y : String × String} (x : String × String)
    {l : List (String × String)} (h : y ∈ l) : y ∈ setInsert x l := by
  unfold setInsert
  split
  · exact h
  · exact List.mem_append_left _ h

/-- The inserted element is a member (pairs). -/
theorem self_mem_setInsert (x : String × String) (l : List (String × String)) :
    x ∈ setInsert x l := by
  unfold setInsert
  split
  · assumption
  · simp

/-- Membership is retained by Python set insertion (strings). -/
theorem mem_setInsertStr_of_mem {y : String} (x : String) {l : List String}
    (h : y ∈ l) : y ∈ setInsertStr x l := by
  unfold setInsertStr
  split
  · exact h
  · exact List.mem_append_left _ h

/-- The parse loop of the import succeeds on well-formed rows and its
accumulated sets contain every row's loser (for sentinel rows) and both
orientations of every row. -/
theorem parse_rows_complete (rows : List (List String))
    (acc : List (String × String) × List String × List (String × String))
    (h2 : ∀ r ∈ rows, r.length = 2) :
    ∃ adds losers rems, parse_rows rows acc = .ok (adds, losers, rems) ∧
      (∀ w l : String, [w, l] ∈ rows →
        (w = "None" → l ∈ losers) ∧ (w, l) ∈ rems ∧ (l, w) ∈ rems) ∧
      (∀ y ∈ acc.2.1, y ∈ losers) ∧ (∀ y ∈ acc.2.2, y ∈ rems) := by
  induction rows generalizing acc with
  | nil =>
    exact ⟨acc.1, acc.2.1, acc.2.2, rfl, by simp, fun y h => h, fun y h => h⟩
  | cons row rest ih =>
    obtain ⟨w0, l0, rfl⟩ : ∃ w0 l0, row = [w0, l0] := by
      have hlen := h2 row (List.mem_cons_self row rest)
      match row, hlen with
      | [a, b], _ => exact ⟨a, b, rfl⟩
    obtain ⟨adds, losers, rems, hok, hrows, hlos, hrem⟩ :=
      ih ((if w0 = "None" then acc.1 else setInsert (w0, l0) acc.1),
          (if w0 = "None" then setInsertStr l0 acc.2.1 else acc.2.1),
          setInsert (l0, w0) (setInsert (w0, l0) acc.2.2))
        (fun r hr => h2 r (List.mem_cons_of_mem _ hr))
    refine ⟨adds, losers, rems, ?_, ?_, ?_, ?_⟩
    · rw [parse_rows]
      exact hok
    · intro w l hwl
      rcases List.mem_cons.1 hwl with hhead | htail
      · have hw : w = w0 ∧ l = l0 := by simpa using hhead
        obtain ⟨rfl, rfl⟩ := hw
        refine ⟨?_, ?_, ?_⟩
        · intro hnone
          apply hlos
          dsimp only
          rw [if_pos hnone]
          exact self_mem_setInsertStr l acc.2.1
        · exact hrem _ (mem_setInsert_of_mem _ (self_mem_setInsert _ _))
        · exact hrem _ (self_mem_setInsert _ _)
      · exact hrows w l htail
    · intro y hy
      apply hlos
      dsimp only
      split
      · exact mem_setInsertStr_of_mem _ hy
      · exact hy
    · intro y hy
      exact hrem _ (mem_setInsert_of_mem _ (mem_setInsert_of_mem _ hy))

/-- What survives the import's two queue filters (app.py lines 435 and
440) touches no collected loser and matches no collected pair. -/
theorem mem_import_filters {losers : List String} {rems pairs : List (String × String)}
    {p : String × String}
    (hp : p ∈ (pairs.filter
        (fun p => !decide (p.1 ∈ losers) && !decide (p.2 ∈ losers))).filter
        (fun p => !decide (p ∈ rems))) :
    (p.1 ∉ losers ∧ p.2 ∉ losers) ∧ p ∉ rems := by
  simp only [List.mem_filter, Bool.and_eq_true, Bool.not_eq_true',
    decide_eq_false_iff_not] at hp
  exact ⟨hp.1.2, hp.2⟩

/-- C8: a successful import (all rows well-formed) removes from the live
Queue every pair touching an excluded-sentinel loser and every pair — in
either orientation — matching an imported winner/loser outcome. -/
theorem C8_import_filters_queue (math : MathUpd) (append : Bool)
    (rows : List (List String)) (s : AppState)
    (h2 : ∀ r ∈ rows, r.length = 2) :
    ∃ s', import_comparison_history math append rows s = .ok s' ∧
      ∀ w l : String, [w, l] ∈ rows →
        (w = "None" → ∀ p ∈ s'.image_pairs, p.1 ≠ l ∧ p.2 ≠ l) ∧
        (w, l) ∉ s'.image_pairs ∧ (l, w) ∉ s'.image_pairs := by
  obtain ⟨adds, losers, rems, hok, hrows, -, -⟩ :=
    parse_rows_complete rows ([], [], []) h2
  simp only [import_comparison_history]
  rw [hok]
  refine ⟨_, rfl, ?_⟩
  intro w l hwl
  obtain ⟨hsent, hmemwl, hmemlw⟩ := hrows w l hwl
  refine ⟨?_, ?_, ?_⟩
  · intro hnone p hp
    have h := (mem_import_filters hp).1
    constructor
    · intro h1
      exact h.1 (h1 ▸ hsent hnone)
    · intro h2'
      exact h.2 (h2' ▸ hsent hnone)
  · intro hin
    exact (mem_import_filters hin).2 hmemwl
  · intro hin
    exact (mem_import_filters hin).2 hmemlw

/-- Witness for `C8_import_filters_queue` at a concrete input. -/
theorem C8_import_filters_queue_witness :
    (∀ r ∈ importRows, r.length = 2) ∧
      (∃ s', import_comparison_history trivialMath false importRows importState = .ok s' ∧
        ∀ w l : String, [w, l] ∈ importRows →
          (w = "None" → ∀ p ∈ s'.image_pairs, p.1 ≠ l ∧ p.2 ≠ l) ∧
          (w, l) ∉ s'.image_pairs ∧ (l, w) ∉ s'.image_pairs) :=
  ⟨by decide, C8_import_filters_queue trivialMath false importRows importState (by decide)⟩

/- ------------------------------------------------------------------ -/
/- Claim C1                                                            -/
/- ------------------------------------------------------------------ -/

/-- Components of `combinations2` entries are members of the list. -/
theorem mem_of_mem_combinations2 {l : List String} {a b : String}
    (h : (a, b) ∈ combinations2 l) : a ∈ l ∧ b ∈ l := by
  induction l with
  | nil => simp [combinations2] at h
  | cons x xs ih =>
    simp only [combinations2, List.mem_append, List.mem_map] at h
    rcases h with ⟨y, hy, hxy⟩ | h
    · cases hxy
      exact ⟨List.mem_cons_self _ _, List.mem_cons_of_mem _ hy⟩
    · have hab := ih h
      exact ⟨List.mem_cons_of_mem _ hab.1, List.mem_cons_of_mem _ hab.2⟩

/-- `combinations2` has exactly n·(n−1)/2 entries. -/
theorem length_combinations2 (l : List String) :
    (combinations2 l).length = l.length.choose 2 := by
  induction l with
  | nil => simp [combinations2]
  | cons x xs ih =>
    show (xs.map (fun y => (x, y)) ++ combinations2 xs).length = (xs.length + 1).choose (1 + 1)
    rw [List.length_append, List.length_map, ih, Nat.choose_succ_succ,
      Nat.choose_one_right]

/-- `combinations2` of a nodup list never pairs an item with itself. -/
theorem combinations2_ne {l : List String} (hnd : l.Nodup) :
    ∀ p ∈ combinations2 l, p.1 ≠ p.2 := by
  induction l with
  | nil => simp [combinations2]
  | cons x xs ih =>
    intro p hp
    simp only [combinations2, List.mem_append, List.mem_map] at hp
    rcases hp with ⟨y, hy, rfl⟩ | hp
    · dsimp only
      rintro rfl
      exact (List.nodup_cons.1 hnd).1 hy
    · exact ih (List.nodup_cons.1 hnd).2 p hp

/-- `combinations2` of a nodup list is nodup (as a list of ordered
tuples). -/
theorem combinations2_nodup {l : List String} (hnd : l.Nodup) :
    (combinations2 l).Nodup := by
  induction l with
  | nil => simp [combinations2]
  | cons x xs ih =>
    obtain ⟨hx, hxs⟩ := List.nodup_cons.1 hnd
    show (xs.map (fun y => (x, y)) ++ combinations2 xs).Nodup
    rw [List.nodup_append]
    refine ⟨hxs.map (fun a b hab => congrArg Prod.snd hab), ih hxs, ?_⟩
    intro p hp hq
    obtain ⟨y, hy, rfl⟩ := List.mem_map.1 hp
    exact hx (mem_of_mem_combinations2 hq).1

/-- The head of a list never occurs as the second component of one of its
`combinations2` entries (provided it does not recur in the tail). -/
theorem head_not_snd_combinations2 {x : String} {xs : List String} (hx : x ∉ xs)
    (a : String) : (a, x) ∉ combinations2 (x :: xs) := by
  intro h
  simp only [combinations2, List.mem_append, List.mem_map] at h
  rcases h with ⟨y, hy, hxy⟩ | h
  · have hyx : y = x := congrArg Prod.snd hxy
    exact hx (hyx ▸ hy)
  · exact hx (mem_of_mem_combinations2 h).2

/-- The ring is the chain of adjacent pairs followed by the wrap-around
pair (last item, first item). -/
theorem ring_pairs_eq_append {l : List String} (hl : l ≠ []) :
    ring_pairs l = l.zip l.tail ++ [(l.getD (l.length - 1) "", l.getD 0 "")] := by
  have hn : 0 < l.length := List.length_pos.2 hl
  apply List.ext_getElem
  · simp only [ring_pairs, List.length_map, List.length_range, List.length_append,
      List.length_zip, List.length_tail, List.length_singleton]
    omega
  · intro i hi1 hi2
    simp only [ring_pairs, List.length_map, List.length_range] at hi1
    simp only [ring_pairs, List.getElem_map, List.getElem_range]
    by_cases hlt : i + 1 < l.length
    · have hzlen : i < (l.zip l.tail).length := by
        simp only [List.length_zip, List.length_tail]
        omega
      rw [List.getElem_append_left hzlen, List.getElem_zip, List.getElem_tail,
        List.getD_eq_getElem l "" hi1, Nat.mod_eq_of_lt hlt,
        List.getD_eq_getElem l "" hlt]
    · have hieq : i = l.length - 1 := by omega
      have hzlen : (l.zip l.tail).length ≤ i := by
        simp only [List.length_zip, List.length_tail]
        omega
      rw [List.getElem_append_right hzlen]
      have hmod : (i + 1) % l.length = 0 := by
        have : i + 1 = l.length := by omega
        simp [this]
      rw [hmod]
      subst hieq
      simp only [List.getElem_singleton]

/-- The first components of the ring are the items themselves. -/
theorem ring_pairs_map_fst (l : List String) : (ring_pairs l).map Prod.fst = l := by
  apply List.ext_getElem
  · simp [ring_pairs]
  · intro i hi1 hi2
    simp only [ring_pairs, List.getElem_map, List.getElem_range]
    exact List.getD_eq_getElem l "" hi2

/-- The ring of a nodup item list is nodup (as a list of ordered tuples). -/
theorem ring_pairs_nodup {l : List String} (h : l.Nodup) : (ring_pairs l).Nodup :=
  List.Nodup.of_map Prod.fst (by rw [ring_pairs_map_fst]; exact h)

/-- With at least two distinct items, no ring pair is a self-pair. -/
theorem ring_pairs_ne {l : List String} (hnd : l.Nodup) (hn : 2 ≤ l.length) :
    ∀ p ∈ ring_pairs l, p.1 ≠ p.2 := by
  intro p hp
  simp only [ring_pairs, List.mem_map, List.mem_range] at hp
  obtain ⟨i, hi, rfl⟩ := hp
  dsimp only
  have h2 : (i + 1) % l.length < l.length := Nat.mod_lt _ (by omega)
  rw [List.getD_eq_getElem l "" hi, List.getD_eq_getElem l "" h2]
  intro heq
  have hij := (List.Nodup.getElem_inj_iff hnd).1 heq
  by_cases hlt : i + 1 < l.length
  · rw [Nat.mod_eq_of_lt hlt] at hij
    omega
  · have hmod : (i + 1) % l.length = 0 := by
      have : i + 1 = l.length := by omega
      simp [this]
    rw [hmod] at hij
    omega

/-- Filtering `combinations2` by membership in the adjacent-pair chain
recovers exactly that chain. -/
theorem filter_mem_zip_tail {l : List String} (hnd : l.Nodup) :
    (combinations2 l).filter (fun q => decide (q ∈ l.zip l.tail)) = l.zip l.tail := by
  induction l with
  | nil => simp [combinations2]
  | cons x xs ih =>
    obtain ⟨hx, hxs⟩ := List.nodup_cons.1 hnd
    cases xs with
    | nil => simp [combinations2]
    | cons y ys =>
      show ((y :: ys).map (fun b => (x, b)) ++ combinations2 (y :: ys)).filter
          (fun q => decide (q ∈ (x, y) :: (y :: ys).zip ys)) =
        (x, y) :: (y :: ys).zip ys
      rw [List.filter_append]
      have hpart1 : ((y :: ys).map (fun b => (x, b))).filter
          (fun q => decide (q ∈ (x, y) :: (y :: ys).zip ys)) = [(x, y)] := by
        rw [List.filter_map]
        have hcong : ∀ b ∈ y :: ys,
            ((fun q => decide (q ∈ (x, y) :: (y :: ys).zip ys)) ∘ fun b => (x, b)) b =
              decide (b = y) := by
          intro b hb
          apply decide_eq_decide.2
          simp only [Function.comp_apply, List.mem_cons, Prod.mk.injEq, true_and]
          constructor
          · rintro (h | h)
            · exact h
            · exact absurd (List.of_mem_zip h).1 hx
          · intro h
            exact Or.inl h
        rw [List.filter_congr hcong]
        have hys : ys.filter (fun b => decide (b = y)) = [] := by
          rw [List.filter_eq_nil_iff]
          intro b hb hbd
          exact (List.nodup_cons.1 hxs).1 (of_decide_eq_true hbd ▸ hb)
        simp [hys]
      have hpart2 : (combinations2 (y :: ys)).filter
          (fun q => decide (q ∈ (x, y) :: (y :: ys).zip ys)) = (y :: ys).zip ys := by
        have hcong : ∀ q ∈ combinations2 (y :: ys),
            decide (q ∈ (x, y) :: (y :: ys).zip ys) =
              decide (q ∈ (y :: ys).zip ys) := by
          intro q hq
          apply decide_eq_decide.2
          simp only [List.mem_cons]
          constructor
          · rintro (h | h)
            · exfalso
              have h1 := (mem_of_mem_combinations2 (h ▸ hq)).1
              exact hx h1
            · exact h
          · intro h
            exact Or.inr h
        rw [List.filter_congr hcong]
        exact ih hxs
      rw [hpart1, hpart2]
      rfl

/-- Filtering `combinations2` by membership in the shuffled ring keeps
exactly the adjacent-pair chain: the wrap-around ring pair (last, first) is
never produced by `combinations2`, so the ordered-tuple dedup misses it. -/
theorem filter_mem_ring {x : String} {xs : List String}
    {ringS : List (String × String)}
    (hperm : ringS.Perm (ring_pairs (x :: xs))) (hnd : (x :: xs).Nodup) :
    (combinations2 (x :: xs)).filter (fun q => decide (q ∈ ringS)) =
      (x :: xs).zip xs := by
  have hx := (List.nodup_cons.1 hnd).1
  have hring := ring_pairs_eq_append (l := x :: xs) (by simp)
  have hcong : ∀ q ∈ combinations2 (x :: xs),
      decide (q ∈ ringS) = decide (q ∈ (x :: xs).zip xs) := by
    intro q hq
    apply decide_eq_decide.2
    rw [hperm.mem_iff, hring]
    simp only [List.mem_append, List.mem_singleton, List.getD_cons_zero]
    constructor
    · rintro (h | h)
      · exact h
      · exfalso
        rw [h] at hq
        exact head_not_snd_combinations2 hx _ hq
    · intro h
      exact Or.inl h
  rw [List.filter_congr hcong]
  exact filter_mem_zip_tail hnd

/-- The combinatorial remainder after the ordered-tuple dedup has
n·(n−1)/2 − (n−1) entries. -/
theorem length_remaining {l : List String} {ringS : List (String × String)}
    (hperm : ringS.Perm (ring_pairs l)) (hnd : l.Nodup) (hn : 2 ≤ l.length) :
    ((combinations2 l).filter (fun q => !decide (q ∈ ringS))).length =
      l.length.choose 2 - (l.length - 1) := by
  cases l with
  | nil => simp at hn
  | cons x xs =>
    have hpartition :=
      List.length_eq_length_filter_add
        (l := combinations2 (x :: xs)) (fun q => decide (q ∈ ringS))
    have hkept : ((combinations2 (x :: xs)).filter
        (fun q => decide (q ∈ ringS))).length = (x :: xs).length - 1 := by
      rw [filter_mem_ring hperm hnd]
      simp only [List.length_zip, List.length_cons]
      omega
    have htot := length_combinations2 (x :: xs)
    omega

/-- The pair (first item, last item) occurs in `combinations2`. -/
theorem head_last_mem_combinations2 {x : String} {xs : List String} (h : xs ≠ []) :
    ((x :: xs).getD 0 "", (x :: xs).getD ((x :: xs).length - 1) "") ∈
      combinations2 (x :: xs) := by
  have hlen : 0 < xs.length := List.length_pos.2 h
  have hgd : (x :: xs).getD ((x :: xs).length - 1) "" = xs.getD (xs.length - 1) "" := by
    have hidx : (x :: xs).length - 1 = (xs.length - 1) + 1 := by
      simp only [List.length_cons]
      omega
    rw [hidx, List.getD_cons_succ]
  rw [hgd]
  have hmem : xs.getD (xs.length - 1) "" ∈ xs := by
    rw [List.getD_eq_getElem xs "" (by omega)]
    exact List.getElem_mem _
  simp only [combinations2, List.mem_append, List.mem_map, List.getD_cons_zero]
  exact Or.inl ⟨_, hmem, rfl⟩

/-- Full characterization of the Queue Builder's output on an item set of
n ≥ 2 distinct items with nothing excluded: n·(n−1)/2 + 1 pairs, no
self-pairs, all entries distinct as ordered tuples, every `combinations2`
pair present, and both orientations of the pair {first item, last item}
present — the one unordered duplicate the ordered-tuple dedup admits. -/
theorem build_pairs_characterization
    (shuffle_ring : List (String × String) → List (String × String))
    (P : List String)
    (hsh : (shuffle_ring (ring_pairs P)).Perm (ring_pairs P))
    (hnd : P.Nodup) (hn : 2 ≤ P.length) :
    (build_pairs shuffle_ring P []).length = P.length * (P.length - 1) / 2 + 1 ∧
    (∀ p ∈ build_pairs shuffle_ring P [], p.1 ≠ p.2) ∧
    (build_pairs shuffle_ring P []).Nodup ∧
    (∀ pq ∈ combinations2 P, pq ∈ build_pairs shuffle_ring P []) ∧
    (P.getD 0 "", P.getD (P.length - 1) "") ∈ build_pairs shuffle_ring P [] ∧
    (P.getD (P.length - 1) "", P.getD 0 "") ∈ build_pairs shuffle_ring P [] := by
  have hbuild : build_pairs shuffle_ring P [] =
      shuffle_ring (ring_pairs P) ++
        (combinations2 P).filter
          (fun pair => !decide (pair ∈ shuffle_ring (ring_pairs P))) := by
    unfold build_pairs
    simp
  rw [hbuild]
  have hlenring : (shuffle_ring (ring_pairs P)).length = P.length := by
    rw [hsh.length_eq]
    simp [ring_pairs]
  have hcomplete : ∀ pq ∈ combinations2 P,
      pq ∈ shuffle_ring (ring_pairs P) ++
        (combinations2 P).filter
          (fun pair => !decide (pair ∈ shuffle_ring (ring_pairs P))) := by
    intro pq hpq
    rw [List.mem_append]
    by_cases hc : pq ∈ shuffle_ring (ring_pairs P)
    · exact Or.inl hc
    · refine Or.inr (List.mem_filter.2 ⟨hpq, ?_⟩)
      simp [hc]
  refine ⟨?_, ?_, ?_, hcomplete, ?_, ?_⟩
  · rw [List.length_append, hlenring, length_remaining hsh hnd hn]
    have hchain : ((combinations2 P).filter
        (fun q => decide (q ∈ shuffle_ring (ring_pairs P)))).length ≤
          (combinations2 P).length := List.length_filter_le _ _
    have hge : P.length - 1 ≤ P.length.choose 2 := by
      cases P with
      | nil => simp at hn
      | cons x xs =>
        have := filter_mem_ring hsh hnd
        have hlenz : ((x :: xs).zip xs).length = (x :: xs).length - 1 := by
          simp only [List.length_zip, List.length_cons]
          omega
        rw [this, hlenz] at hchain
        rw [← length_combinations2]
        exact hchain
    rw [← Nat.choose_two_right]
    omega
  · intro p hp
    rcases List.mem_append.1 hp with h | h
    · exact ring_pairs_ne hnd hn p (hsh.mem_iff.1 h)
    · exact combinations2_ne hnd p (List.mem_filter.1 h).1
  · rw [List.nodup_append]
    refine ⟨hsh.nodup_iff.2 (ring_pairs_nodup hnd),
      (combinations2_nodup hnd).filter _, ?_⟩
    intro p hp hq
    have := (List.mem_filter.1 hq).2
    simp only [Bool.not_eq_true', decide_eq_false_iff_not] at this
    exact this hp
  · apply hcomplete
    cases P with
    | nil => simp at hn
    | cons x xs =>
      apply head_last_mem_combinations2
      intro hxs
      rw [hxs] at hn
      simp at hn
  · apply List.mem_append_left
    rw [hsh.mem_iff]
    cases P with
    | nil => simp at hn
    | cons x xs =>
      rw [ring_pairs_eq_append (by simp)]
      exact List.mem_append_right _ (List.mem_singleton.2 rfl)

/-- Counterexample to C1: with the two eligible items a.png, b.png (nothing
excluded, identity as the ring shuffle — one legitimate outcome of the
random source), the built Queue is [(a,b), (b,a)]: its length is 2, not
n(n−1)/2 = 1, and its two entries contain the same two items in reversed
order — the dedup `pair not in initial_pairs` compares ordered tuples, so
the reversed ring pair is not recognised as a duplicate. -/
theorem C1_duplicate_pair_counterexample :
    ¬ ((initialize_image_pairs id id ["a.png", "b.png"] cleanState).image_pairs.length =
          2 * (2 - 1) / 2 ∧
        (initialize_image_pairs id id ["a.png", "b.png"]
              cleanState).image_pairs.Pairwise
          (fun p q => ¬ (p = q ∨ (p.1 = q.2 ∧ p.2 = q.1)))) := by
  decide

/-- C1 (amended): for every item set of n ≥ 2 distinct eligible items
(ExclusionSet empty) and every permutation the ring shuffle produces, the
built Queue contains exactly n·(n−1)/2 + 1 pairs with no self-pairs; its
entries are distinct as ordered tuples and every unordered pair is
represented, but the deduplication of the combinatorial set against the
ring treats pair identity as ordered, so the unordered pair
{item[0], item[n−1]} appears twice, once in each orientation. -/
theorem C1_queue_amended
    (shuffle_ring shuffle_tail : List (String × String) → List (String × String))
    (walk : List String) (s : AppState)
    (hex : s.excluded_images = [])
    (hsh : (shuffle_ring (ring_pairs (get_image_paths walk []))).Perm
      (ring_pairs (get_image_paths walk [])))
    (hnd : (get_image_paths walk []).Nodup)
    (hn : 2 ≤ (get_image_paths walk []).length) :
    (initialize_image_pairs shuffle_ring shuffle_tail walk s).image_pairs.length =
        (get_image_paths walk []).length *
          ((get_image_paths walk []).length - 1) / 2 + 1 ∧
    (∀ p ∈ (initialize_image_pairs shuffle_ring shuffle_tail walk s).image_pairs,
      p.1 ≠ p.2) ∧
    (initialize_image_pairs shuffle_ring shuffle_tail walk s).image_pairs.Nodup ∧
    (∀ pq ∈ combinations2 (get_image_paths walk []),
      pq ∈ (initialize_image_pairs shuffle_ring shuffle_tail walk s).image_pairs) ∧
    ((get_image_paths walk []).getD 0 "",
        (get_image_paths walk []).getD ((get_image_paths walk []).length - 1) "") ∈
      (initialize_image_pairs shuffle_ring shuffle_tail walk s).image_pairs ∧
    ((get_image_paths walk []).getD ((get_image_paths walk []).length - 1) "",
        (get_image_paths walk []).getD 0 "") ∈
      (initialize_image_pairs shuffle_ring shuffle_tail walk s).image_pairs ∧
    (initialize_image_pairs shuffle_ring shuffle_tail walk s).current_pair_index = 0 := by
  have hnenil : get_image_paths walk [] ≠ [] := by
    intro h
    rw [h] at hn
    exact absurd hn (by decide)
  have hne : (get_image_paths walk s.excluded_images).isEmpty = false := by
    rw [hex]
    simpa [List.isEmpty_iff] using hnenil
  have hrw := initialize_image_pairs_nonempty shuffle_ring shuffle_tail walk s hne
  rw [hex] at hrw
  rw [hrw]
  obtain ⟨h1, h2, h3, h4, h5, h6⟩ :=
    build_pairs_characterization shuffle_ring (get_image_paths walk []) hsh hnd hn
  exact ⟨h1, h2, h3, h4, h5, h6, rfl⟩

/-- Witness for `C1_queue_amended` at the three items a.png, b.png, c.png
with the identity ring shuffle. -/
theorem C1_queue_amended_witness :
    (cleanState.excluded_images = [] ∧
      (id (ring_pairs (get_image_paths ["a.png", "b.png", "c.png"] []))).Perm
        (ring_pairs (get_image_paths ["a.png", "b.png", "c.png"] [])) ∧
      (get_image_paths ["a.png", "b.png", "c.png"] []).Nodup ∧
      2 ≤ (get_image_paths ["a.png", "b.png", "c.png"] []).length) ∧
    ((initialize_image_pairs id id ["a.png", "b.png", "c.png"]
          cleanState).image_pairs.length =
        (get_image_paths ["a.png", "b.png", "c.png"] []).length *
          ((get_image_paths ["a.png", "b.png", "c.png"] []).length - 1) / 2 + 1 ∧
      (∀ p ∈ (initialize_image_pairs id id ["a.png", "b.png", "c.png"]
          cleanState).image_pairs, p.1 ≠ p.2) ∧
      (initialize_image_pairs id id ["a.png", "b.png", "c.png"]
          cleanState).image_pairs.Nodup ∧
      (∀ pq ∈ combinations2 (get_image_paths ["a.png", "b.png", "c.png"] []),
        pq ∈ (initialize_image_pairs id id ["a.png", "b.png", "c.png"]
          cleanState).image_pairs) ∧
      ((get_image_paths ["a.png", "b.png", "c.png"] []).getD 0 "",
          (get_image_paths ["a.png", "b.png", "c.png"] []).getD
            ((get_image_paths ["a.png", "b.png", "c.png"] []).length - 1) "") ∈
        (initialize_image_pairs id id ["a.png", "b.png", "c.png"]
          cleanState).image_pairs ∧
      ((get_image_paths ["a.png", "b.png", "c.png"] []).getD
            ((get_image_paths ["a.png", "b.png", "c.png"] []).length - 1) "",
          (get_image_paths ["a.png", "b.png", "c.png"] []).getD 0 "") ∈
        (initialize_image_pairs id id ["a.png", "b.png", "c.png"]
          cleanState).image_pairs ∧
      (initialize_image_pairs id id ["a.png", "b.png", "c.png"]
          cleanState).current_pair_index = 0) :=
  ⟨⟨rfl, List.Perm.refl _, by decide, by decide⟩,
   C1_queue_amended id id ["a.png", "b.png", "c.png"] cleanState rfl
     (List.Perm.refl _) (by decide) (by decide)⟩

end ImageRanker
